import Mathlib

/-!
Shallow embedding of the workout-planner state logic of `src/App.js`.

The component keeps three pieces of state (`blocks`, `graphData`, `log`) and
mutates them through `addToGraph`/`addToLog` (add-workout, reached from a
click or from `handleDragEnd`), `deleteLogEntry`, and `resetAll`.  Machine
times (`Date.now()`, milliseconds) are modelled as an explicit `now : Nat`
argument supplied by the environment, so that traces can exhibit two add
operations in the same millisecond.  A JavaScript `TypeError` (dereferencing
`undefined`) is modelled as `none` from an `Option`-valued transition.
-/

/-- A catalog workout block, an element of `initialBlocks`:
`{ id, content, km }`. -/
structure Block where
  id : String
  content : String
  km : Nat
deriving DecidableEq, Repr

/-- A bar-graph aggregate record, as built by `addToGraph`:
a block spread together with a `count` field (`{ ...block, count: 1 }`). -/
structure GraphRecord where
  id : String
  content : String
  km : Nat
  count : Nat
deriving DecidableEq, Repr

/-- A workout log entry, as built by `addToLog`:
`{ id: Date.now(), content, km }`. -/
structure LogEntry where
  id : Nat
  content : String
  km : Nat
deriving DecidableEq, Repr

/-- The component state: the three `useState` pieces `blocks`, `graphData`
and `log`. -/
structure AppState where
  blocks : List Block
  graphData : List GraphRecord
  log : List LogEntry
deriving DecidableEq, Repr

/-- The fixed catalog `initialBlocks` of `App.js`. -/
def initialBlocks : List Block :=
  [ { id := "1", content := "Warm-up", km := 2 },
    { id := "2", content := "Active", km := 5 },
    { id := "3", content := "Cool-down", km := 3 },
    { id := "4", content := "Step Repeats", km := 4 },
    { id := "5", content := "Ramp Up", km := 6 },
    { id := "6", content := "Ramp Down", km := 4 } ]

/-- The `setGraphData` updater of `addToGraph`: if a record with the block's
`content` exists its `count` is incremented (via `map`), otherwise a new
record `{ ...block, count: 1 }` is appended. -/
def addToGraphData (block : Block) (prev : List GraphRecord) : List GraphRecord :=
  match prev.find? (fun b => b.content == block.content) with
  | some _ =>
      prev.map (fun b =>
        if b.content == block.content then { b with count := b.count + 1 } else b)
  | none =>
      prev ++ [{ id := block.id, content := block.content, km := block.km, count := 1 }]

/-- The `setLog` updater of `addToLog`: append
`{ id: Date.now(), content: block.content, km: block.km }`;
the `Date.now()` value is the explicit argument `now`. -/
def addToLogList (now : Nat) (block : Block) (prevLog : List LogEntry) : List LogEntry :=
  prevLog ++ [{ id := now, content := block.content, km := block.km }]

/-- The full `addToGraph` transition (which also calls `addToLog`);
this is the single add-workout operation, reached identically from the
`onClick` handler and from a completed drag. -/
def addToGraph (now : Nat) (block : Block) (s : AppState) : AppState :=
  { s with
    graphData := addToGraphData block s.graphData,
    log := addToLogList now block s.log }

/-- The `deleteLogEntry` transition.  The graph updater evaluates
`log.find(entry => entry.id === logId).content` against the render-time
`log` (the pre-delete log, captured in the closure).  When no entry has the
token, that `find` is `undefined` and the `.content` access throws a
`TypeError` — but only if the `map` callback actually runs, i.e. only when
`graphData` is nonempty; with an empty `graphData` the callback never runs
and the operation is a no-op.  The throwing outcome is `none`. -/
def deleteLogEntry (logId : Nat) (s : AppState) : Option AppState :=
  match s.log.find? (fun entry => entry.id == logId) with
  | some located =>
      some { s with
        log := s.log.filter (fun entry => entry.id != logId),
        graphData :=
          (s.graphData.map (fun block =>
            if block.content == located.content then
              { block with count := if block.count > 1 then block.count - 1 else 0 }
            else block)).filter (fun block => block.count > 0) }
  | none =>
      if s.graphData.isEmpty then
        some { s with log := s.log.filter (fun entry => entry.id != logId) }
      else none

/-- The `resetAll` transition: clear the log and the graph data;
`blocks` is not touched. -/
def resetAll (s : AppState) : AppState :=
  { s with log := [], graphData := [] }

/-- The part of a `react-beautiful-dnd` drop result that `handleDragEnd`
reads: `result.destination` (only its presence matters) and
`result.source.index`. -/
structure DragResult where
  destination : Option String
  sourceIndex : Nat
deriving DecidableEq, Repr

/-- The `handleDragEnd` handler: with no destination it returns early
(state unchanged); otherwise the dragged block is
`blocks[result.source.index]` and is passed to `addToGraph`.  An
out-of-range index would make `addToGraph` dereference `undefined`
(`none`); `react-beautiful-dnd` only emits in-range indices. -/
def handleDragEnd (now : Nat) (result : DragResult) (s : AppState) : Option AppState :=
  match result.destination with
  | none => some s
  | some _ =>
      match s.blocks.get? result.sourceIndex with
      | some draggedBlock => some (addToGraph now draggedBlock s)
      | none => none

/-- The chart input assembled from `graphData`: the parallel triple of
labels, data points and bar colors. -/
structure ChartData where
  labels : List String
  data : List Nat
  backgroundColor : List String
deriving DecidableEq, Repr

/-- The color of the bar at a given position index:
`hsl(${index * 60}, 50%, 60%)`. -/
def hslColor (index : Nat) : String :=
  "hsl(" ++ toString (index * 60) ++ ", 50%, 60%)"

/-- The `chartData` value of `App.js`: labels are the record contents, data
points the record counts, and each bar color depends only on the position
index. -/
def chartData (graphData : List GraphRecord) : ChartData :=
  { labels := graphData.map (fun block => block.content),
    data := graphData.map (fun block => block.count),
    backgroundColor := graphData.mapIdx (fun index _ => hslColor index) }

/-- What the graph section of the page shows: either the explicit
`No workouts added yet.` message or a bar chart of `chartData`. -/
inductive GraphView where
  | noData (message : String)
  | barChart (c : ChartData)
deriving DecidableEq, Repr

/-- The graph section render: `graphData.length === 0` selects the no-data
message, otherwise the `Bar` chart fed with `chartData`. -/
def renderGraph (graphData : List GraphRecord) : GraphView :=
  if graphData.length == 0 then GraphView.noData "No workouts added yet."
  else GraphView.barChart (chartData graphData)

/-- A user-interaction event: an add-workout selection of catalog index
`blockIdx` happening at machine time `now`, a delete click carrying a log
token, or a reset click. -/
inductive Event where
  | add (now : Nat) (blockIdx : Nat)
  | delete (logId : Nat)
  | reset
deriving DecidableEq, Repr

/-- Run one event against the state. -/
def runEvent (s : AppState) (ev : Event) : Option AppState :=
  match ev with
  | Event.add now blockIdx =>
      match s.blocks.get? blockIdx with
      | some b => some (addToGraph now b s)
      | none => none
  | Event.delete logId => deleteLogEntry logId s
  | Event.reset => some (resetAll s)

/-- Run a sequence of events; a thrown `TypeError` (`none`) aborts the run. -/
def runTrace (s : AppState) : List Event → Option AppState
  | [] => some s
  | ev :: evs =>
      match runEvent s ev with
      | some s1 => runTrace s1 evs
      | none => none

/-- The initial component state: the catalog, an empty graph and an empty
log. -/
def initState : AppState :=
  { blocks := initialBlocks, graphData := [], log := [] }

/-- The machine times (`Date.now()` values) consumed by the add events of a
trace, in order. -/
def addTimes : List Event → List Nat
  | [] => []
  | Event.add now _ :: evs => now :: addTimes evs
  | Event.delete _ :: evs => addTimes evs
  | Event.reset :: evs => addTimes evs

/-- Delete log entries one at a time by token, in the given token order;
a thrown `TypeError` (`none`) aborts. -/
def deleteAllTokens (s : AppState) : List Nat → Option AppState
  | [] => some s
  | t :: ts =>
      match deleteLogEntry t s with
      | some s1 => deleteAllTokens s1 ts
      | none => none

/-- Well-formedness of a state, the induction invariant tying the aggregate
to the log: every record counts exactly its matching log entries, every log
entry has a record, record contents are pairwise distinct, log tokens are
pairwise distinct, and no record has count 0. -/
def WF (s : AppState) : Prop :=
  (∀ r ∈ s.graphData, r.count = s.log.countP (fun e => e.content == r.content)) ∧
  (∀ e ∈ s.log, ∃ r ∈ s.graphData, r.content = e.content) ∧
  (s.graphData.map (fun r => r.content)).Nodup ∧
  (s.log.map (fun e => e.id)).Nodup ∧
  (∀ r ∈ s.graphData, r.count ≠ 0)

/-- Mapping a function of the index alone over a list is the same as mapping
it over `range` of the list's length. -/
lemma mapIdx_index_only {α β : Type} (f : Nat → β) (l : List α) :
    l.mapIdx (fun i _ => f i) = (List.range l.length).map f := by
  induction l using List.list_reverse_induction with
  | base => rfl
  | ind l e ih =>
      rw [List.mapIdx_append_one, ih, List.length_append, List.length_singleton,
        List.range_succ, List.map_append, List.map_singleton]

/-- A list holding two distinct elements satisfying `p` counts `p` at least
twice. -/
lemma two_le_countP {α : Type} (p : α → Bool) {a b : α} (hab : a ≠ b)
    (hpa : p a = true) (hpb : p b = true) :
    ∀ {l : List α}, a ∈ l → b ∈ l → 2 ≤ l.countP p := by
  intro l
  induction l with
  | nil => intro ha; cases ha
  | cons x xs ih =>
      intro ha hb
      rcases List.mem_cons.mp ha with rfl | ha'
      · rcases List.mem_cons.mp hb with rfl | hb'
        · exact absurd rfl hab
        · have h1 : 0 < xs.countP p := List.countP_pos_iff.mpr ⟨b, hb', hpb⟩
          rw [List.countP_cons, if_pos hpa]
          omega
      · rcases List.mem_cons.mp hb with rfl | hb'
        · have h1 : 0 < xs.countP p := List.countP_pos_iff.mpr ⟨a, ha', hpa⟩
          rw [List.countP_cons, if_pos hpb]
          omega
        · have h2 := ih ha' hb'
          rw [List.countP_cons]
          omega

/-- Finding in a list whose prefix rejects `p` and whose middle element
satisfies it yields the middle element. -/
lemma find?_middle {α : Type} {p : α → Bool} {l₁ : List α} (l₂ : List α) {e : α}
    (h₁ : ∀ x ∈ l₁, ¬ p x = true) (he : p e = true) :
    (l₁ ++ e :: l₂).find? p = some e := by
  induction l₁ with
  | nil => simpa using List.find?_cons_of_pos l₂ he
  | cons a l ih =>
      rw [List.cons_append, List.find?_cons_of_neg _ (h₁ a (by simp))]
      exact ih (fun x hx => h₁ x (by simp [hx]))

/-- Filtering a list keeps a prefix and suffix that satisfy `p` and drops a
middle element that does not. -/
lemma filter_middle {α : Type} {p : α → Bool} {l₁ l₂ : List α} {e : α}
    (h₁ : ∀ x ∈ l₁, p x = true) (h₂ : ∀ x ∈ l₂, p x = true) (he : p e = false) :
    (l₁ ++ e :: l₂).filter p = l₁ ++ l₂ := by
  rw [List.filter_append, List.filter_cons, List.filter_eq_self.mpr h₁,
    List.filter_eq_self.mpr h₂]
  simp [he]

/-- When the keys of a decomposed list are pairwise distinct, no element of
the prefix or suffix shares the middle element's key. -/
lemma nodup_middle_facts {α β : Type} (k : α → β) {l₁ l₂ : List α} {e : α}
    (hnd : ((l₁ ++ e :: l₂).map k).Nodup) :
    (∀ x ∈ l₁, k x ≠ k e) ∧ (∀ x ∈ l₂, k x ≠ k e) := by
  rw [List.map_append, List.nodup_append] at hnd
  obtain ⟨h1, h2, hdisj⟩ := hnd
  rw [List.map_cons, List.nodup_cons] at h2
  constructor
  · intro x hx hk
    exact hdisj (List.mem_map.mpr ⟨x, hx, rfl⟩) (by simp [hk])
  · intro x hx hk
    exact h2.1 (hk ▸ List.mem_map.mpr ⟨x, hx, rfl⟩)

/-- Mapping a content-preserving function over graph records does not change
the content sequence. -/
lemma map_content_preserving (f : GraphRecord → GraphRecord)
    (hf : ∀ r, (f r).content = r.content) (g : List GraphRecord) :
    (g.map f).map (fun r => r.content) = g.map (fun r => r.content) := by
  rw [List.map_map]
  exact List.map_congr_left (fun a _ => hf a)

/-- When the token is found in the log, the delete transition takes the
filter-and-decrement branch. -/
lemma deleteLogEntry_eq_some_found {logId : Nat} {s : AppState} {e : LogEntry}
    (hf : s.log.find? (fun x => x.id == logId) = some e) :
    deleteLogEntry logId s = some
      { s with
        log := s.log.filter (fun x => x.id != logId),
        graphData :=
          (s.graphData.map (fun b =>
            if b.content == e.content then
              { b with count := if b.count > 1 then b.count - 1 else 0 }
            else b)).filter (fun b => b.count > 0) } := by
  unfold deleteLogEntry
  rw [hf]

/-- The delete transition only ever keeps log entries of the original log. -/
lemma deleteLogEntry_log_mem {logId : Nat} {s s1 : AppState}
    (h : deleteLogEntry logId s = some s1) : ∀ x ∈ s1.log, x ∈ s.log := by
  unfold deleteLogEntry at h
  split at h
  · injection h with h
    subst h
    intro x hx
    exact (List.mem_filter.mp hx).1
  · split at h
    · injection h with h
      subst h
      intro x hx
      exact (List.mem_filter.mp hx).1
    · cases h

/-- Adding a workout whose machine time is fresh preserves well-formedness. -/
lemma WF_addToGraph {now : Nat} {b : Block} {s : AppState} (hWF : WF s)
    (hfresh : ∀ e ∈ s.log, e.id ≠ now) : WF (addToGraph now b s) := by
  obtain ⟨h1, h2, h3, h4, h5⟩ := hWF
  have hlog : (addToGraph now b s).log
      = s.log ++ [{ id := now, content := b.content, km := b.km }] := rfl
  have hids : ((addToGraph now b s).log.map (fun e => e.id)).Nodup := by
    rw [hlog, List.map_append, List.nodup_append]
    refine ⟨h4, List.nodup_singleton _, ?_⟩
    intro x hx hxmem
    obtain ⟨e, he, rfl⟩ := List.mem_map.mp hx
    have : e.id = now := by simpa using hxmem
    exact hfresh e he this
  have hcount : ∀ (p : LogEntry → Bool),
      (addToGraph now b s).log.countP p
        = s.log.countP p
          + (if p { id := now, content := b.content, km := b.km } then 1 else 0) := by
    intro p
    rw [hlog, List.countP_append]
    simp [List.countP_cons]
  cases hf : s.graphData.find? (fun r => r.content == b.content) with
  | some r0 =>
      have hG : (addToGraph now b s).graphData
          = s.graphData.map (fun r =>
              if r.content == b.content then { r with count := r.count + 1 } else r) := by
        show addToGraphData b s.graphData = _
        unfold addToGraphData
        rw [hf]
      refine ⟨?_, ?_, ?_, hids, ?_⟩
      · intro r' hr'
        rw [hG] at hr'
        obtain ⟨r, hr, hfr⟩ := List.mem_map.mp hr'
        by_cases hc : (r.content == b.content) = true
        · have hceq : r.content = b.content := by simpa using hc
          rw [if_pos hc] at hfr
          subst hfr
          show r.count + 1 = (addToGraph now b s).log.countP (fun x => x.content == r.content)
          rw [hcount, ← h1 r hr]
          have hmatch : (({ id := now, content := b.content, km := b.km } :
              LogEntry).content == r.content) = true := by simp [hceq]
          rw [if_pos hmatch]
        · rw [if_neg hc] at hfr
          subst hfr
          show r.count = (addToGraph now b s).log.countP (fun x => x.content == r.content)
          rw [hcount, ← h1 r hr]
          have hmatch : (({ id := now, content := b.content, km := b.km } :
              LogEntry).content == r.content) = false := by
            simp only [beq_eq_false_iff_ne]
            intro hq
            exact hc (by simp [hq])
          rw [if_neg (by simp [hmatch])]
          omega
      · intro e' he'
        rw [hlog] at he'
        rcases List.mem_append.mp he' with he'' | he''
        · obtain ⟨r, hr, hrc⟩ := h2 e' he''
          refine ⟨if r.content == b.content then { r with count := r.count + 1 } else r,
            ?_, ?_⟩
          · rw [hG]
            exact List.mem_map.mpr ⟨r, hr, rfl⟩
          · by_cases hc : (r.content == b.content) = true
            · rw [if_pos hc]; exact hrc
            · rw [if_neg hc]; exact hrc
        · have hnew : e' = { id := now, content := b.content, km := b.km } := by
            simpa using he''
          subst hnew
          have hr0 := List.mem_of_find?_eq_some hf
          have hr0c : r0.content = b.content := by simpa using List.find?_some hf
          refine ⟨{ r0 with count := r0.count + 1 }, ?_, hr0c⟩
          rw [hG]
          refine List.mem_map.mpr ⟨r0, hr0, ?_⟩
          rw [if_pos (by simp [hr0c])]
      · rw [hG,
          map_content_preserving _
            (fun r => by by_cases hc : (r.content == b.content) = true <;> simp [hc]) _]
        exact h3
      · intro r' hr'
        rw [hG] at hr'
        obtain ⟨r, hr, hfr⟩ := List.mem_map.mp hr'
        by_cases hc : (r.content == b.content) = true
        · rw [if_pos hc] at hfr
          subst hfr
          simp
        · rw [if_neg hc] at hfr
          subst hfr
          exact h5 r hr
  | none =>
      have hG : (addToGraph now b s).graphData
          = s.graphData
            ++ [{ id := b.id, content := b.content, km := b.km, count := 1 }] := by
        show addToGraphData b s.graphData = _
        unfold addToGraphData
        rw [hf]
      have hnone : ∀ r ∈ s.graphData, (r.content == b.content) = false := fun r hr =>
        Bool.eq_false_iff.mpr (List.find?_eq_none.mp hf r hr)
      have hnolog : s.log.countP (fun x => x.content == b.content) = 0 := by
        rw [List.countP_eq_zero]
        intro e' he' hmatch
        obtain ⟨r, hr, hrc⟩ := h2 e' he'
        have : (r.content == b.content) = true := by
          rw [beq_iff_eq, hrc]
          exact beq_iff_eq.mp hmatch
        rw [hnone r hr] at this
        cases this
      refine ⟨?_, ?_, ?_, hids, ?_⟩
      · intro r' hr'
        rw [hG] at hr'
        rcases List.mem_append.mp hr' with hr'' | hr''
        · rw [hcount, ← h1 r' hr'']
          have hmatch : (({ id := now, content := b.content, km := b.km } :
              LogEntry).content == r'.content) = false := by
            simp only [beq_eq_false_iff_ne]
            intro hq
            have := hnone r' hr''
            rw [beq_eq_false_iff_ne] at this
            exact this hq.symm
          rw [if_neg (by simp [hmatch])]
          omega
        · have : r' = { id := b.id, content := b.content, km := b.km, count := 1 } := by
            simpa using hr''
          subst this
          show 1 = (addToGraph now b s).log.countP (fun x => x.content == b.content)
          rw [hcount, hnolog]
          rw [if_pos (by simp)]
      · intro e' he'
        rw [hlog] at he'
        rcases List.mem_append.mp he' with he'' | he''
        · obtain ⟨r, hr, hrc⟩ := h2 e' he''
          exact ⟨r, by rw [hG]; exact List.mem_append_left _ hr, hrc⟩
        · have : e' = { id := now, content := b.content, km := b.km } := by
            simpa using he''
          subst this
          refine ⟨{ id := b.id, content := b.content, km := b.km, count := 1 }, ?_, rfl⟩
          rw [hG]
          exact List.mem_append_right _ (by simp)
      · rw [hG, List.map_append, List.nodup_append]
        refine ⟨h3, by simp, ?_⟩
        intro x hx hxmem
        obtain ⟨r, hr, rfl⟩ := List.mem_map.mp hx
        have : r.content = b.content := by simpa using hxmem
        have hfalse := hnone r hr
        rw [beq_eq_false_iff_ne] at hfalse
        exact hfalse this
      · intro r' hr'
        rw [hG] at hr'
        rcases List.mem_append.mp hr' with hr'' | hr''
        · exact h5 r' hr''
        · have : r' = { id := b.id, content := b.content, km := b.km, count := 1 } := by
            simpa using hr''
          subst this
          simp

/-- Deleting a log entry preserves well-formedness. -/
lemma WF_deleteLogEntry {logId : Nat} {s s1 : AppState} (hWF : WF s)
    (h : deleteLogEntry logId s = some s1) : WF s1 := by
  obtain ⟨h1, h2, h3, h4, h5⟩ := hWF
  unfold deleteLogEntry at h
  cases hf : s.log.find? (fun x => x.id == logId) with
  | none =>
      rw [hf] at h
      have hall : ∀ x ∈ s.log, (x.id == logId) = false := fun x hx =>
        Bool.eq_false_iff.mpr (List.find?_eq_none.mp hf x hx)
      have hfil : s.log.filter (fun x => x.id != logId) = s.log :=
        List.filter_eq_self.mpr (fun a ha => by
          simp only [bne_iff_ne]
          intro hq
          have hx := hall a ha
          rw [hq] at hx
          simp at hx)
      by_cases hemp : s.graphData.isEmpty = true
      · rw [if_pos hemp] at h
        injection h with h
        subst h
        rw [show ({ s with log := s.log.filter (fun x => x.id != logId) } : AppState)
            = s by rw [hfil]]
        exact ⟨h1, h2, h3, h4, h5⟩
      · rw [if_neg hemp] at h
        cases h
  | some e =>
      rw [hf] at h
      injection h with h
      subst h
      have hemem : e ∈ s.log := List.mem_of_find?_eq_some hf
      have heid : e.id = logId := by simpa using List.find?_some hf
      obtain ⟨l₁, l₂, hdec⟩ := List.append_of_mem hemem
      obtain ⟨hl₁, hl₂⟩ := nodup_middle_facts (fun x : LogEntry => x.id) (hdec ▸ h4)
      have hfil : s.log.filter (fun x => x.id != logId) = l₁ ++ l₂ := by
        rw [hdec]
        apply filter_middle
        · intro x hx
          simp only [bne_iff_ne]
          rw [← heid]
          exact hl₁ x hx
        · intro x hx
          simp only [bne_iff_ne]
          rw [← heid]
          exact hl₂ x hx
        · rw [heid]
          exact bne_self_eq_false logId
      have hcountP : ∀ (p : LogEntry → Bool),
          s.log.countP p = (l₁ ++ l₂).countP p + (if p e then 1 else 0) := by
        intro p
        rw [hdec, List.countP_append, List.countP_append, List.countP_cons]
        omega
      have hmemlog : ∀ x ∈ l₁ ++ l₂, x ∈ s.log := by
        intro x hx
        rw [hdec]
        rcases List.mem_append.mp hx with h' | h'
        · exact List.mem_append_left _ h'
        · exact List.mem_append_right _ (List.mem_cons_of_mem _ h')
      refine ⟨?_, ?_, ?_, ?_, ?_⟩
      · intro r' hr'
        replace hr' : r' ∈ (s.graphData.map (fun b =>
            if b.content == e.content then
              { b with count := if b.count > 1 then b.count - 1 else 0 }
            else b)).filter (fun b => b.count > 0) := hr'
        obtain ⟨hmem, hposb⟩ := List.mem_filter.mp hr'
        have hpos : 0 < r'.count := by simpa using hposb
        obtain ⟨r, hr, hfr⟩ := List.mem_map.mp hmem
        show r'.count = (s.log.filter (fun x => x.id != logId)).countP
          (fun x => x.content == r'.content)
        rw [hfil]
        by_cases hc : (r.content == e.content) = true
        · have hceq : r.content = e.content := by simpa using hc
          rw [if_pos hc] at hfr
          subst hfr
          have hpos' : 0 < (if r.count > 1 then r.count - 1 else 0) := hpos
          have hgt : r.count > 1 := by
            by_contra hq
            rw [if_neg hq] at hpos'
            exact absurd hpos' (lt_irrefl 0)
          have hr1 := h1 r hr
          have hcp := hcountP (fun x => x.content == r.content)
          rw [if_pos (show ((e.content == r.content) : Bool) = true by simp [hceq])]
            at hcp
          show (if r.count > 1 then r.count - 1 else 0)
            = (l₁ ++ l₂).countP (fun x => x.content == r.content)
          rw [if_pos hgt]
          omega
        · rw [if_neg hc] at hfr
          subst hfr
          have hr1 := h1 r hr
          have hcp := hcountP (fun x => x.content == r.content)
          rw [if_neg (show ¬ ((e.content == r.content) : Bool) = true by
            simp only [beq_iff_eq]
            intro hq
            exact hc (by simp [hq]))] at hcp
          omega
      · intro e' he'
        replace he' : e' ∈ s.log.filter (fun x => x.id != logId) := he'
        rw [hfil] at he'
        have he'log : e' ∈ s.log := hmemlog e' he'
        have he'id : e'.id ≠ logId := by
          rcases List.mem_append.mp he' with h' | h'
          · rw [← heid]; exact hl₁ e' h'
          · rw [← heid]; exact hl₂ e' h'
        obtain ⟨r, hr, hrc⟩ := h2 e' he'log
        by_cases hc : (r.content == e.content) = true
        · have hceq : r.content = e.content := by simpa using hc
          have hne : e ≠ e' := fun hq => he'id (hq ▸ heid)
          have h2cnt : 2 ≤ s.log.countP (fun x => x.content == r.content) := by
            refine two_le_countP _ hne ?_ ?_ hemem he'log
            · simp [hceq]
            · simp [hrc]
          have hcnt := h1 r hr
          refine ⟨{ r with count := if r.count > 1 then r.count - 1 else 0 }, ?_, ?_⟩
          · apply List.mem_filter.mpr
            constructor
            · refine List.mem_map.mpr ⟨r, hr, ?_⟩
              rw [if_pos hc]
            · have hgt : r.count > 1 := by omega
              simp only [if_pos hgt]
              simpa using Nat.lt_of_lt_of_le (by omega : 0 < r.count - 1) (le_refl _)
          · exact hrc
        · refine ⟨r, ?_, hrc⟩
          apply List.mem_filter.mpr
          constructor
          · refine List.mem_map.mpr ⟨r, hr, ?_⟩
            rw [if_neg hc]
          · have := h5 r hr
            simpa using Nat.pos_of_ne_zero this
      · show ((((s.graphData.map (fun b =>
            if b.content == e.content then
              { b with count := if b.count > 1 then b.count - 1 else 0 }
            else b)).filter (fun b => b.count > 0))).map (fun r => r.content)).Nodup
        have hsub := (List.filter_sublist (p := fun b => decide (b.count > 0))
          (s.graphData.map (fun b =>
            if b.content == e.content then
              { b with count := if b.count > 1 then b.count - 1 else 0 }
            else b))).map (fun r => r.content)
        apply hsub.nodup
        rw [map_content_preserving _
          (fun r => by by_cases hc : (r.content == e.content) = true <;> simp [hc]) _]
        exact h3
      · show (((s.log.filter (fun x => x.id != logId))).map (fun e => e.id)).Nodup
        exact ((List.filter_sublist s.log).map (fun e => e.id)).nodup h4
      · intro r' hr'
        replace hr' : r' ∈ (s.graphData.map (fun b =>
            if b.content == e.content then
              { b with count := if b.count > 1 then b.count - 1 else 0 }
            else b)).filter (fun b => b.count > 0) := hr'
        obtain ⟨_, hposb⟩ := List.mem_filter.mp hr'
        have : 0 < r'.count := by simpa using hposb
        omega

/-- Reset always yields a well-formed state. -/
lemma WF_resetAll (s : AppState) : WF (resetAll s) := by
  refine ⟨?_, ?_, ?_, ?_, ?_⟩ <;> simp [resetAll]

/-- The initial state is well-formed. -/
lemma WF_initState : WF initState := by
  refine ⟨?_, ?_, ?_, ?_, ?_⟩ <;> simp [initState]

/-- Running a trace whose add events use pairwise-distinct machine times,
all fresh for the current log, preserves well-formedness. -/
lemma runTrace_WF (evs : List Event) : ∀ (s s1 : AppState), WF s →
    (∀ e ∈ s.log, e.id ∉ addTimes evs) → (addTimes evs).Nodup →
    runTrace s evs = some s1 → WF s1 := by
  induction evs with
  | nil =>
      intro s s1 hWF _ _ h
      injection h with h
      subst h
      exact hWF
  | cons ev evs ih =>
      intro s s1 hWF hfresh hnd h
      simp only [runTrace] at h
      cases hev : runEvent s ev with
      | none => rw [hev] at h; cases h
      | some s2 =>
          rw [hev] at h
          cases ev with
          | add now blockIdx =>
              simp only [runEvent] at hev
              cases hb : s.blocks.get? blockIdx with
              | none => rw [hb] at hev; cases hev
              | some b =>
                  rw [hb] at hev
                  injection hev with hev
                  subst hev
                  have hnow : ∀ e ∈ s.log, e.id ≠ now := by
                    intro e he hq
                    exact hfresh e he (by rw [hq]; simp [addTimes])
                  have hndtail : (addTimes evs).Nodup :=
                    (List.nodup_cons.mp (by simpa [addTimes] using hnd)).2
                  have hnotin : now ∉ addTimes evs :=
                    (List.nodup_cons.mp (by simpa [addTimes] using hnd)).1
                  refine ih _ _ (WF_addToGraph hWF hnow) ?_ hndtail h
                  intro e he
                  have he' : e ∈ s.log ++ [{ id := now, content := b.content, km := b.km }] :=
                    he
                  rcases List.mem_append.mp he' with h' | h'
                  · intro hq
                    exact hfresh e h' (by simp [addTimes, hq])
                  · have : e = { id := now, content := b.content, km := b.km } := by
                      simpa using h'
                    subst this
                    exact hnotin
          | delete logId =>
              simp only [runEvent] at hev
              have hsub := deleteLogEntry_log_mem hev
              refine ih _ _ (WF_deleteLogEntry hWF hev) ?_
                (by simpa [addTimes] using hnd) h
              intro e he
              have := hfresh e (hsub e he)
              simpa [addTimes] using this
          | reset =>
              simp only [runEvent] at hev
              injection hev with hev
              subst hev
              refine ih _ _ (WF_resetAll s) ?_ (by simpa [addTimes] using hnd) h
              intro e he
              cases he

/-- Deleting every log entry of a well-formed state one at a time by its
token succeeds and ends with an empty log and an empty aggregate. -/
lemma deleteAll_of_WF : ∀ (n : Nat) (s : AppState), s.log.length = n → WF s →
    ∃ s1, deleteAllTokens s (s.log.map (fun e => e.id)) = some s1 ∧
      s1.log = [] ∧ s1.graphData = [] := by
  intro n
  induction n with
  | zero =>
      intro s hlen hWF
      obtain ⟨h1, _, _, _, h5⟩ := hWF
      have hlog : s.log = [] := List.length_eq_zero.mp hlen
      have hgraph : s.graphData = [] := by
        cases hg : s.graphData with
        | nil => rfl
        | cons r g =>
            exfalso
            have hr : r ∈ s.graphData := by rw [hg]; simp
            have := h1 r hr
            rw [hlog] at this
            exact h5 r hr (by simpa using this)
      refine ⟨s, ?_, hlog, hgraph⟩
      rw [hlog]
      rfl
  | succ n ih =>
      intro s hlen hWF
      cases hlog : s.log with
      | nil => rw [hlog] at hlen; cases hlen
      | cons e rest =>
          obtain ⟨h1, h2, h3, h4, h5⟩ := hWF
          have hfind : s.log.find? (fun x => x.id == e.id) = some e := by
            rw [hlog]
            exact List.find?_cons_of_pos rest (by simp)
          have hrest : ∀ x ∈ rest, x.id ≠ e.id := by
            have hnd : ((e :: rest).map (fun x => x.id)).Nodup := by
              rw [← hlog]; exact h4
            rw [List.map_cons, List.nodup_cons] at hnd
            intro x hx hq
            exact hnd.1 (hq ▸ List.mem_map.mpr ⟨x, hx, rfl⟩)
          have hs2 := deleteLogEntry_eq_some_found hfind
          have hfil : s.log.filter (fun x => x.id != e.id) = rest := by
            rw [hlog, List.filter_cons]
            rw [if_neg (by simp)]
            exact List.filter_eq_self.mpr (fun a ha => by
              simp only [bne_iff_ne]
              exact hrest a ha)
          have hWF2 := WF_deleteLogEntry ⟨h1, h2, h3, h4, h5⟩ hs2
          set s2 : AppState :=
            { s with
              log := s.log.filter (fun x => x.id != e.id),
              graphData :=
                (s.graphData.map (fun b =>
                  if b.content == e.content then
                    { b with count := if b.count > 1 then b.count - 1 else 0 }
                  else b)).filter (fun b => b.count > 0) } with hs2def
          have hs2log : s2.log = rest := hfil
          have hlen2 : s2.log.length = n := by
            rw [hs2log]
            have : s.log.length = rest.length + 1 := by rw [hlog]; rfl
            omega
          obtain ⟨s1, hrun, hempty, hgempty⟩ := ih s2 hlen2 hWF2
          refine ⟨s1, ?_, hempty, hgempty⟩
          show deleteAllTokens s (e.id :: rest.map (fun x => x.id)) = some s1
          unfold deleteAllTokens
          rw [hs2]
          have : rest.map (fun x => x.id) = s2.log.map (fun x => x.id) := by
            rw [hs2log]
          rw [this]
          exact hrun

/-- C1 (amended): for every state reachable from the empty state by adds,
deletes and resets in which the add operations carry pairwise-distinct
machine times (so identity tokens are unique), every aggregate record's
count equals the number of log rows whose blockName matches, and no record
with count 0 exists. -/
theorem C1_invariant_distinct_times (evs : List Event) (s : AppState)
    (hnd : (addTimes evs).Nodup) (hrun : runTrace initState evs = some s) :
    (∀ r ∈ s.graphData,
      r.count = (s.log.filter (fun e => e.content == r.content)).length) ∧
    (∀ r ∈ s.graphData, r.count ≠ 0) := by
  have hWF := runTrace_WF evs initState s WF_initState
    (by intro e he; simp [initState] at he) hnd hrun
  obtain ⟨h1, _, _, _, h5⟩ := hWF
  refine ⟨?_, h5⟩
  intro r hr
  rw [← List.countP_eq_length_filter]
  exact h1 r hr

/-- Witness for C1 at a concrete trace: add Warm-up at t=5, add Warm-up at
t=6, delete token 5; the surviving record counts the one matching row. -/
theorem C1_invariant_distinct_times_witness :
    ({ id := "1", content := "Warm-up", km := 2, count := 1 } : GraphRecord).count
      = (({ blocks := initialBlocks,
            graphData := [{ id := "1", content := "Warm-up", km := 2, count := 1 }],
            log := [{ id := 6, content := "Warm-up", km := 2 }] } : AppState).log.filter
          (fun e => e.content ==
            ({ id := "1", content := "Warm-up", km := 2,
               count := 1 } : GraphRecord).content)).length :=
  (C1_invariant_distinct_times [Event.add 5 0, Event.add 6 0, Event.delete 5]
    { blocks := initialBlocks,
      graphData := [{ id := "1", content := "Warm-up", km := 2, count := 1 }],
      log := [{ id := 6, content := "Warm-up", km := 2 }] }
    (by decide) (by decide)).1
    { id := "1", content := "Warm-up", km := 2, count := 1 } (by decide)

/-- C6 (amended): for every state reachable by a trace whose add operations
carry pairwise-distinct machine times, deleting every log entry one at a
time by its token succeeds and ends with exactly the log and aggregate that
reset produces (both empty). -/
theorem C6_reset_equiv_delete_each (evs : List Event) (s : AppState)
    (hnd : (addTimes evs).Nodup) (hrun : runTrace initState evs = some s) :
    (deleteAllTokens s (s.log.map (fun e => e.id))).map
        (fun s1 => (s1.log, s1.graphData))
      = some ((resetAll s).log, (resetAll s).graphData) := by
  have hWF := runTrace_WF evs initState s WF_initState
    (by intro e he; simp [initState] at he) hnd hrun
  obtain ⟨s1, hrun1, hempty, hgempty⟩ := deleteAll_of_WF s.log.length s rfl hWF
  rw [hrun1]
  simp [hempty, hgempty, resetAll]

/-- Witness for C6 at a concrete trace: one add at t=5, then delete-each
versus reset. -/
theorem C6_reset_equiv_delete_each_witness :
    (deleteAllTokens
        { blocks := initialBlocks,
          graphData := [{ id := "1", content := "Warm-up", km := 2, count := 1 }],
          log := [{ id := 5, content := "Warm-up", km := 2 }] }
        (({ blocks := initialBlocks,
            graphData := [{ id := "1", content := "Warm-up", km := 2, count := 1 }],
            log := [{ id := 5, content := "Warm-up", km := 2 }] } : AppState).log.map
          (fun e => e.id))).map (fun s1 => (s1.log, s1.graphData))
      = some ((resetAll
          { blocks := initialBlocks,
            graphData := [{ id := "1", content := "Warm-up", km := 2, count := 1 }],
            log := [{ id := 5, content := "Warm-up", km := 2 }] }).log,
        (resetAll
          { blocks := initialBlocks,
            graphData := [{ id := "1", content := "Warm-up", km := 2, count := 1 }],
            log := [{ id := 5, content := "Warm-up", km := 2 }] }).graphData) :=
  C6_reset_equiv_delete_each [Event.add 5 0]
    { blocks := initialBlocks,
      graphData := [{ id := "1", content := "Warm-up", km := 2, count := 1 }],
      log := [{ id := 5, content := "Warm-up", km := 2 }] }
    (by decide) (by decide)

/-- C10: a drag-end event whose result has no destination leaves the Log,
the AggregateRecord set, and the Catalog unchanged — the handler returns
early without performing any state transition. -/
theorem C10_drag_without_destination (now : Nat) (result : DragResult) (s : AppState)
    (h : result.destination = none) :
    handleDragEnd now result s = some s := by
  unfold handleDragEnd
  rw [h]

/-- Witness for C10 at a concrete input. -/
theorem C10_drag_without_destination_witness :
    handleDragEnd 7 { destination := none, sourceIndex := 3 } initState = some initState :=
  C10_drag_without_destination 7 { destination := none, sourceIndex := 3 } initState rfl

/-- C8: the chart series projection is a pure function of the aggregate
records: labels are the record contents in record order, data points the
corresponding counts, colors a function of the position index alone, the
three sequences have equal length, and an empty record set renders as the
explicit no-data message (and only an empty one does). -/
theorem C8_chart_projection (g : List GraphRecord) :
    (chartData g).labels = g.map (fun r => r.content) ∧
    (chartData g).data = g.map (fun r => r.count) ∧
    (chartData g).backgroundColor = (List.range g.length).map hslColor ∧
    (chartData g).labels.length = g.length ∧
    (chartData g).data.length = g.length ∧
    (chartData g).backgroundColor.length = g.length ∧
    (renderGraph g = GraphView.noData "No workouts added yet." ↔ g = []) ∧
    renderGraph g =
      (if g.isEmpty then GraphView.noData "No workouts added yet."
       else GraphView.barChart (chartData g)) := by
  refine ⟨rfl, rfl, mapIdx_index_only hslColor g, ?_, ?_, ?_, ?_, ?_⟩
  · simp [chartData]
  · simp [chartData]
  · simp [chartData, mapIdx_index_only hslColor g]
  · constructor
    · intro h
      by_contra hne
      have hlen : g.length ≠ 0 := fun h0 => hne (List.length_eq_zero.mp h0)
      simp only [renderGraph, beq_iff_eq, hlen, if_neg] at h
      exact absurd h (by simp [hlen])
    · intro h
      subst h
      rfl
  · cases g with
    | nil => rfl
    | cons a l => simp [renderGraph, List.isEmpty_cons]

/-- C7: reset clears the log and the aggregate to empty and leaves the
catalog as it was; moreover no add, delete, or reset transition ever
changes the catalog. -/
theorem C7_reset_and_catalog_frame (s s1 : AppState) (ev : Event)
    (h : runEvent s ev = some s1) :
    (resetAll s).log = [] ∧ (resetAll s).graphData = [] ∧
    (resetAll s).blocks = s.blocks ∧ s1.blocks = s.blocks := by
  refine ⟨rfl, rfl, rfl, ?_⟩
  cases ev with
  | add now blockIdx =>
      simp only [runEvent] at h
      cases hb : s.blocks.get? blockIdx with
      | none => rw [hb] at h; cases h
      | some b => rw [hb] at h; injection h with h; subst h; rfl
  | delete logId =>
      simp only [runEvent, deleteLogEntry] at h
      split at h
      · injection h with h; subst h; rfl
      · split at h
        · injection h with h; subst h; rfl
        · cases h
  | reset =>
      simp only [runEvent] at h
      injection h with h
      subst h
      rfl

/-- Witness for C7 at a concrete input. -/
theorem C7_reset_and_catalog_frame_witness :
    (resetAll initState).log = [] ∧ (resetAll initState).graphData = [] ∧
    (resetAll initState).blocks = initState.blocks ∧
    (resetAll initState).blocks = initState.blocks :=
  C7_reset_and_catalog_frame initState (resetAll initState) Event.reset rfl

/-- Filtering a mapped list is a filterMap of the composite. -/
lemma filter_of_map_eq_filterMap {α β : Type} (f : α → β) (p : β → Bool) (l : List α) :
    (l.map f).filter p
      = l.filterMap (fun a => if p (f a) = true then some (f a) else none) := by
  induction l with
  | nil => rfl
  | cons a l ih =>
      simp only [List.map_cons, List.filter_cons, List.filterMap_cons]
      by_cases h : p (f a) = true
      · rw [if_pos h, if_pos h, ih]
      · rw [if_neg h, if_neg h, ih]

/-- For records of nonzero count, the delete transition's aggregate update
(map a conditional decrement, then drop non-positive counts) agrees with the
specification's rule: decrement the matching record by 1, remove it when the
decremented count is 0, keep every other record unchanged. -/
lemma aggregate_delete_spec (c : String) (g : List GraphRecord)
    (hc : ∀ r ∈ g, r.count ≠ 0) :
    (g.map (fun b =>
        if b.content == c then
          { b with count := if b.count > 1 then b.count - 1 else 0 }
        else b)).filter (fun b => b.count > 0)
      = g.filterMap (fun r =>
          if r.content = c then
            (if r.count = 1 then none else some { r with count := r.count - 1 })
          else some r) := by
  rw [filter_of_map_eq_filterMap]
  apply List.filterMap_congr
  intro r hr
  have hcr := hc r hr
  by_cases hrc : r.content = c
  · by_cases h1 : r.count = 1
    · simp [hrc, h1]
    · have hgt : r.count > 1 := by omega
      have hpos : r.count - 1 > 0 := by omega
      simp [hrc, h1, hgt, hpos]
  · have hpos : r.count > 0 := Nat.pos_of_ne_zero hcr
    simp [hrc, hpos]

/-- Mapping a function that fixes every element of a list is the identity. -/
lemma map_pointwise_id {α : Type} (f : α → α) (l : List α)
    (h : ∀ x ∈ l, f x = x) : l.map f = l := by
  calc l.map f = l.map id := List.map_congr_left h
    _ = l := List.map_id l

/-- Splitting a count over a token: non-matching plus matching entries make
up the whole log. -/
lemma countP_bne_add_countP_beq (l : List LogEntry) (k : Nat) :
    l.countP (fun x => x.id != k) + l.countP (fun x => x.id == k) = l.length := by
  induction l with
  | nil => rfl
  | cons a l ih =>
      rw [List.countP_cons, List.countP_cons, List.length_cons]
      by_cases h : a.id = k
      · rw [if_neg (by simp [h]), if_pos (by simp [h])]
        omega
      · rw [if_pos (by simp [h]), if_neg (by simp [h])]
        omega

/-- C4: deleting a token that occurs in exactly one log entry (the data
model's unique-token reading) of a state whose record counts are all
nonzero removes exactly that entry from the log, preserving the order of
the remaining entries, leaves the catalog alone, and updates the aggregate
by the blockName captured from the located entry before removal: its record
is decremented by 1, removed entirely when the count reaches 0, and the
aggregate is untouched when no record matches. -/
theorem C4_delete_present_token (s : AppState) (logId : Nat) (e : LogEntry)
    (l₁ l₂ : List LogEntry)
    (hcounts : ∀ r ∈ s.graphData, r.count ≠ 0)
    (hdec : s.log = l₁ ++ e :: l₂) (he : e.id = logId)
    (hl₁ : ∀ x ∈ l₁, x.id ≠ logId) (hl₂ : ∀ x ∈ l₂, x.id ≠ logId) :
    (deleteLogEntry logId s).map (fun s1 => (s1.log, s1.graphData, s1.blocks))
      = some (l₁ ++ l₂,
          s.graphData.filterMap (fun r =>
            if r.content = e.content then
              (if r.count = 1 then none else some { r with count := r.count - 1 })
            else some r),
          s.blocks) := by
  have hfind : s.log.find? (fun x => x.id == logId) = some e := by
    rw [hdec]
    apply find?_middle
    · intro x hx
      simp only [beq_iff_eq]
      exact hl₁ x hx
    · simp [he]
  rw [deleteLogEntry_eq_some_found hfind, Option.map_some']
  have hfil : s.log.filter (fun x => x.id != logId) = l₁ ++ l₂ := by
    rw [hdec]
    apply filter_middle
    · intro x hx
      simp only [bne_iff_ne]
      exact hl₁ x hx
    · intro x hx
      simp only [bne_iff_ne]
      exact hl₂ x hx
    · simp [he]
  simp only [Option.some.injEq, Prod.mk.injEq]
  exact ⟨hfil, aggregate_delete_spec e.content s.graphData hcounts, trivial⟩

/-- Witness for C4 at a concrete input: a single Warm-up entry with token 5
is deleted; the log empties and the count-1 record disappears. -/
theorem C4_delete_present_token_witness :
    (deleteLogEntry 5
        { blocks := initialBlocks,
          graphData := [{ id := "1", content := "Warm-up", km := 2, count := 1 }],
          log := [{ id := 5, content := "Warm-up", km := 2 }] }).map
        (fun s1 => (s1.log, s1.graphData, s1.blocks))
      = some (([] : List LogEntry),
          ([{ id := "1", content := "Warm-up", km := 2, count := 1 }] :
              List GraphRecord).filterMap (fun r =>
            if r.content = "Warm-up" then
              (if r.count = 1 then none else some { r with count := r.count - 1 })
            else some r),
          initialBlocks) :=
  C4_delete_present_token
    { blocks := initialBlocks,
      graphData := [{ id := "1", content := "Warm-up", km := 2, count := 1 }],
      log := [{ id := 5, content := "Warm-up", km := 2 }] }
    5 { id := 5, content := "Warm-up", km := 2 } [] []
    (by decide) rfl rfl (by simp) (by simp)

/-- C5: for a catalog block (here `blocks[i]`), a completed drag and a click
perform the identical transition `addToGraph`; it appends exactly one log
entry carrying the block's name and distance at the tail, leaves the
catalog alone, and updates the aggregate: when no record carries the
block's name a fresh record with count 1 and the block's distance is
appended, and when one does (located anywhere in the record list), exactly
that record's count is incremented by 1 while every other record and the
record order stay unchanged. -/
theorem C5_add_workout (now : Nat) (s : AppState) (i : Nat) (b : Block) (d : String)
    (hb : s.blocks.get? i = some b)
    (hnd : (s.graphData.map (fun r => r.content)).Nodup) :
    handleDragEnd now { destination := some d, sourceIndex := i } s
      = some (addToGraph now b s) ∧
    (addToGraph now b s).log
      = s.log ++ [{ id := now, content := b.content, km := b.km }] ∧
    (addToGraph now b s).blocks = s.blocks ∧
    ((∀ r ∈ s.graphData, r.content ≠ b.content) →
      (addToGraph now b s).graphData
        = s.graphData ++ [{ id := b.id, content := b.content, km := b.km, count := 1 }]) ∧
    (∀ g₁ g₂ r, s.graphData = g₁ ++ r :: g₂ → r.content = b.content →
      (addToGraph now b s).graphData = g₁ ++ { r with count := r.count + 1 } :: g₂) := by
  refine ⟨?_, rfl, rfl, ?_, ?_⟩
  · show (match s.blocks.get? i with
      | some draggedBlock => some (addToGraph now draggedBlock s)
      | none => none) = some (addToGraph now b s)
    rw [hb]
  · intro hnone
    have hf : s.graphData.find? (fun r => r.content == b.content) = none := by
      rw [List.find?_eq_none]
      intro r hr hq
      exact hnone r hr (by simpa using hq)
    show addToGraphData b s.graphData = _
    unfold addToGraphData
    rw [hf]
  · intro g₁ g₂ r hgdec hrc
    obtain ⟨hg₁, hg₂⟩ :=
      nodup_middle_facts (fun x : GraphRecord => x.content) (hgdec ▸ hnd)
    have hfind : s.graphData.find? (fun x => x.content == b.content) = some r := by
      rw [hgdec]
      apply find?_middle
      · intro x hx
        simp only [beq_iff_eq]
        rw [← hrc]
        exact hg₁ x hx
      · simp [hrc]
    show addToGraphData b s.graphData = _
    unfold addToGraphData
    rw [hfind, hgdec, List.map_append, List.map_cons]
    rw [map_pointwise_id _ g₁ (fun x hx => by
      rw [if_neg (by simp only [beq_iff_eq]; rw [← hrc]; exact hg₁ x hx)])]
    rw [map_pointwise_id _ g₂ (fun x hx => by
      rw [if_neg (by simp only [beq_iff_eq]; rw [← hrc]; exact hg₂ x hx)])]
    rw [if_pos (by simp [hrc])]

/-- Witness for C5 at a concrete input: clicking or dragging Warm-up onto a
state that already counts one Warm-up bumps exactly that record to 2. -/
theorem C5_add_workout_witness :
    handleDragEnd 8 { destination := some "workoutBlocks", sourceIndex := 0 }
        { blocks := initialBlocks,
          graphData := [{ id := "1", content := "Warm-up", km := 2, count := 1 }],
          log := [{ id := 5, content := "Warm-up", km := 2 }] }
      = some (addToGraph 8 { id := "1", content := "Warm-up", km := 2 }
          { blocks := initialBlocks,
            graphData := [{ id := "1", content := "Warm-up", km := 2, count := 1 }],
            log := [{ id := 5, content := "Warm-up", km := 2 }] }) ∧
    (addToGraph 8 { id := "1", content := "Warm-up", km := 2 }
        { blocks := initialBlocks,
          graphData := [{ id := "1", content := "Warm-up", km := 2, count := 1 }],
          log := [{ id := 5, content := "Warm-up", km := 2 }] }).graphData
      = [{ id := "1", content := "Warm-up", km := 2, count := 2 }] := by
  have h := C5_add_workout 8
    { blocks := initialBlocks,
      graphData := [{ id := "1", content := "Warm-up", km := 2, count := 1 }],
      log := [{ id := 5, content := "Warm-up", km := 2 }] }
    0 { id := "1", content := "Warm-up", km := 2 } "workoutBlocks" rfl (by decide)
  exact ⟨h.1, h.2.2.2.2 [] [] { id := "1", content := "Warm-up", km := 2, count := 1 }
    rfl rfl⟩

/-- C9: when the log holds more than one entry bearing the same token (the
duplicate-token hazard), one delete call removes every one of them — the
surviving log counts zero such entries and shrinks by the full multiplicity
— while the record matching the located entry's blockName is decremented by
only 1. -/
theorem C9_duplicate_token_delete (s : AppState) (logId : Nat) (e : LogEntry)
    (r : GraphRecord)
    (hfind : s.log.find? (fun x => x.id == logId) = some e)
    (_hdup : 2 ≤ s.log.countP (fun x => x.id == logId))
    (hr : r ∈ s.graphData) (hrc : r.content = e.content) (hcount : 1 < r.count) :
    (deleteLogEntry logId s).map (fun s1 =>
        (s1.log.countP (fun x => x.id == logId),
         s1.log.length + s.log.countP (fun x => x.id == logId),
         s1.graphData.elem { r with count := r.count - 1 }))
      = some (0, s.log.length, true) := by
  rw [deleteLogEntry_eq_some_found hfind, Option.map_some']
  simp only [Option.some.injEq, Prod.mk.injEq]
  refine ⟨?_, ?_, ?_⟩
  · rw [List.countP_eq_zero]
    intro a ha
    have hne := (List.mem_filter.mp ha).2
    simp only [bne_iff_ne] at hne
    simp [hne]
  · show (s.log.filter (fun x => x.id != logId)).length
        + s.log.countP (fun x => x.id == logId) = s.log.length
    rw [← List.countP_eq_length_filter]
    exact countP_bne_add_countP_beq s.log logId
  · apply List.elem_iff.mpr
    apply List.mem_filter.mpr
    constructor
    · refine List.mem_map.mpr ⟨r, hr, ?_⟩
      rw [if_pos (by simp [hrc]), if_pos hcount]
    · have hpos : r.count - 1 > 0 := by omega
      simpa using hpos

/-- Witness for C9 at a concrete input: two Warm-up entries share token 5;
one delete removes both while the Warm-up record drops from 2 to 1. -/
theorem C9_duplicate_token_delete_witness :
    (deleteLogEntry 5
        { blocks := initialBlocks,
          graphData := [{ id := "1", content := "Warm-up", km := 2, count := 2 }],
          log := [{ id := 5, content := "Warm-up", km := 2 },
                  { id := 5, content := "Warm-up", km := 2 }] }).map (fun s1 =>
        (s1.log.countP (fun x => x.id == 5),
         s1.log.length
           + ({ blocks := initialBlocks,
                graphData := [{ id := "1", content := "Warm-up", km := 2, count := 2 }],
                log := [{ id := 5, content := "Warm-up", km := 2 },
                        { id := 5, content := "Warm-up", km := 2 }] } :
              AppState).log.countP (fun x => x.id == 5),
         s1.graphData.elem { id := "1", content := "Warm-up", km := 2, count := 2 - 1 }))
      = some (0,
          ({ blocks := initialBlocks,
             graphData := [{ id := "1", content := "Warm-up", km := 2, count := 2 }],
             log := [{ id := 5, content := "Warm-up", km := 2 },
                     { id := 5, content := "Warm-up", km := 2 }] } : AppState).log.length,
          true) :=
  C9_duplicate_token_delete
    { blocks := initialBlocks,
      graphData := [{ id := "1", content := "Warm-up", km := 2, count := 2 }],
      log := [{ id := 5, content := "Warm-up", km := 2 },
              { id := 5, content := "Warm-up", km := 2 }] }
    5 { id := 5, content := "Warm-up", km := 2 }
    { id := "1", content := "Warm-up", km := 2, count := 2 }
    (by decide) (by decide) (by decide) rfl (by decide)

/-- C2 is violated by the code: in the state reached by one add-workout,
whose log holds no entry with token 99, `deleteLogEntry 99` evaluates
`log.find(entry => entry.id === logId).content` with `find` returning
`undefined`, so the handler throws a `TypeError` (modelled `none`) instead
of being a no-op. -/
theorem C2_delete_absent_token_throws :
    runTrace initState [Event.add 5 0] = some
      { blocks := initialBlocks,
        graphData := [{ id := "1", content := "Warm-up", km := 2, count := 1 }],
        log := [{ id := 5, content := "Warm-up", km := 2 }] } ∧
    ({ blocks := initialBlocks,
       graphData := [{ id := "1", content := "Warm-up", km := 2, count := 1 }],
       log := [{ id := 5, content := "Warm-up", km := 2 }] } :
        AppState).log.filter (fun e => e.id == 99) = [] ∧
    deleteLogEntry 99
      { blocks := initialBlocks,
        graphData := [{ id := "1", content := "Warm-up", km := 2, count := 1 }],
        log := [{ id := 5, content := "Warm-up", km := 2 }] } = none := by
  decide

/-- C3 is violated by the code: log tokens come from `Date.now()` alone, so
two add operations in the same millisecond (both at time 5 here) produce a
reachable state whose log carries the duplicate tokens `[5, 5]`. -/
theorem C3_duplicate_tokens_reachable :
    runTrace initState [Event.add 5 0, Event.add 5 1] = some
      { blocks := initialBlocks,
        graphData := [{ id := "1", content := "Warm-up", km := 2, count := 1 },
                      { id := "2", content := "Active", km := 5, count := 1 }],
        log := [{ id := 5, content := "Warm-up", km := 2 },
                { id := 5, content := "Active", km := 5 }] } ∧
    ¬ (({ blocks := initialBlocks,
          graphData := [{ id := "1", content := "Warm-up", km := 2, count := 1 },
                        { id := "2", content := "Active", km := 5, count := 1 }],
          log := [{ id := 5, content := "Warm-up", km := 2 },
                  { id := 5, content := "Active", km := 5 }] } :
            AppState).log.map (fun e => e.id)).Nodup := by
  decide

/-- C1 as stated is false: after two same-millisecond adds of Warm-up and a
delete of the shared token 5, the reachable state keeps a Warm-up record of
count 1 while the log holds no Warm-up row at all. -/
theorem C1_invariant_counterexample :
    runTrace initState [Event.add 5 0, Event.add 5 0, Event.delete 5] = some
      { blocks := initialBlocks,
        graphData := [{ id := "1", content := "Warm-up", km := 2, count := 1 }],
        log := [] } ∧
    (({ blocks := initialBlocks,
        graphData := [{ id := "1", content := "Warm-up", km := 2, count := 1 }],
        log := [] } : AppState).log.filter
          (fun e => e.content == "Warm-up")).length = 0 ∧
    ¬ ((1 : Nat) = 0) := by
  decide

/-- C6 as stated is false: in the reachable state after two
same-millisecond adds of Warm-up, reset yields empty log and empty
aggregate, but deleting every log entry one at a time by its token aborts
(the second delete of token 5 throws) and in particular does not end with
both empty. -/
theorem C6_reset_vs_delete_counterexample :
    runTrace initState [Event.add 5 0, Event.add 5 0] = some
      { blocks := initialBlocks,
        graphData := [{ id := "1", content := "Warm-up", km := 2, count := 2 }],
        log := [{ id := 5, content := "Warm-up", km := 2 },
                { id := 5, content := "Warm-up", km := 2 }] } ∧
    (resetAll
      { blocks := initialBlocks,
        graphData := [{ id := "1", content := "Warm-up", km := 2, count := 2 }],
        log := [{ id := 5, content := "Warm-up", km := 2 },
                { id := 5, content := "Warm-up", km := 2 }] }).log = [] ∧
    (resetAll
      { blocks := initialBlocks,
        graphData := [{ id := "1", content := "Warm-up", km := 2, count := 2 }],
        log := [{ id := 5, content := "Warm-up", km := 2 },
                { id := 5, content := "Warm-up", km := 2 }] }).graphData = [] ∧
    deleteAllTokens
      { blocks := initialBlocks,
        graphData := [{ id := "1", content := "Warm-up", km := 2, count := 2 }],
        log := [{ id := 5, content := "Warm-up", km := 2 },
                { id := 5, content := "Warm-up", km := 2 }] }
      (({ blocks := initialBlocks,
          graphData := [{ id := "1", content := "Warm-up", km := 2, count := 2 }],
          log := [{ id := 5, content := "Warm-up", km := 2 },
                  { id := 5, content := "Warm-up", km := 2 }] } :
            AppState).log.map (fun e => e.id)) = none := by
  decide
